import Mathlib

/-!
Verification of the token-substitution engine of the
`operator-data-replace-inline` repository (Go sources
`pkg/utils/utils.go` and `pkg/vault/vault.go` / `pkg/git`).

The Go code drives everything through package `regexp` with a handful of
fixed patterns compiled in `init()`.  Go's `regexp` documents
leftmost-first (Perl-style backtracking) match semantics, so the
embedding below implements a small leftmost-first backtracking matcher
over an abstract syntax of exactly the constructs those fixed patterns
use: literals, character classes, lazy and greedy `*`/`+`/`?`,
capture groups, `^`, a string-final `$`, and the ASCII word boundary.
The matcher threads explicit fuel; fuel is decremented on every
recursive call, and the top-level entry points hand each match attempt
a fuel budget far above the number of steps the fixed patterns can take
on the inputs considered here, so exhaustion never fires on them.

External effects (the Kubernetes secret GET and the Vault/Git backend
calls, which perform network and filesystem I/O) are modelled as an
explicit environment of oracle functions; everything else is translated
from the Go source statement by statement.  Go runtime panics (index
out of range) are modelled by `Option`, `none` being the panic.
-/

namespace DataReplace

/-- Character class of RE2's `\s`, i.e. `[\t\n\f\r ]`. -/
def goRegexSpace (c : Char) : Bool :=
  c = ' ' || c = '\t' || c = '\n' || c = '\x0c' || c = '\r'

/-- Character class of RE2's `.` (any character except newline). -/
def goDotChar (c : Char) : Bool :=
  c ≠ '\n'

/-- Word characters for RE2's `\b`: `[0-9A-Za-z_]`. -/
def goWordChar (c : Char) : Bool :=
  c.isAlphanum || c = '_'

/-- Abstract syntax for the fragment of Go regular expressions used by
the fixed patterns of `utils.go`.  `star greedy r` is `r*` (greedy) or
`r*?` (lazy); `opt` is `?`; `bos`/`eos` are `^`/`$`; `wordB` is `\b`. -/
inductive RE where
  | eps
  | lit (c : Char)
  | cls (p : Char → Bool)
  | seq (a b : RE)
  | star (greedy : Bool) (r : RE)
  | opt (greedy : Bool) (r : RE)
  | group (i : Nat) (r : RE)
  | bos
  | eos
  | wordB

/-- Capture list: pairs of group index and captured substring. -/
abbrev Caps := List (Nat × String)

/-- Continuation of the backtracking matcher: previous character (for
word boundaries), remaining input, captures so far. -/
abbrev MCont := Option Char → List Char → Caps → Option (List Char × Caps)

/-- Leftmost-first backtracking matcher in continuation-passing style.
Alternatives are tried in the order a Perl-style backtracking engine
would try them (greedy operators try the longer alternative first, lazy
ones the shorter), and the first overall success wins, which is the
documented submatch semantics of Go's `regexp`.  Fuel is decremented on
every recursive call; a star iteration that consumed nothing falls
through to the continuation, mirroring RE2's empty-iteration cut. -/
def matchRe : Nat → RE → Option Char → List Char → Caps → MCont → Option (List Char × Caps)
  | 0, _, _, _, _, _ => none
  | fuel + 1, re, prev, s, caps, k =>
    match re with
    | .eps => k prev s caps
    | .lit c =>
      match s with
      | [] => none
      | a :: rest => if a = c then k (some a) rest caps else none
    | .cls p =>
      match s with
      | [] => none
      | a :: rest => if p a then k (some a) rest caps else none
    | .seq r1 r2 =>
      matchRe fuel r1 prev s caps (fun p2 s2 c2 => matchRe fuel r2 p2 s2 c2 k)
    | .opt g r =>
      if g then (matchRe fuel r prev s caps k).orElse (fun _ => k prev s caps)
      else (k prev s caps).orElse (fun _ => matchRe fuel r prev s caps k)
    | .star g r =>
      let next : MCont := fun p2 s2 c2 =>
        if s2.length < s.length then matchRe fuel (.star g r) p2 s2 c2 k else k p2 s2 c2
      if g then (matchRe fuel r prev s caps next).orElse (fun _ => k prev s caps)
      else (k prev s caps).orElse (fun _ => matchRe fuel r prev s caps next)
    | .group i r =>
      matchRe fuel r prev s caps
        (fun p2 s2 c2 => k p2 s2 ((i, String.mk (s.take (s.length - s2.length))) :: c2))
    | .bos => if prev.isNone then k prev s caps else none
    | .eos => if s.isEmpty then k prev s caps else none
    | .wordB =>
      let lw := match prev with | some c => goWordChar c | none => false
      let rw := match s with | c :: _ => goWordChar c | [] => false
      if lw != rw then k prev s caps else none

/-- Fuel budget handed to one match attempt; generously above the step
count the fixed patterns can take on the inputs considered here. -/
def matchFuel (cs : List Char) : Nat :=
  600 * (cs.length + 2) * (cs.length + 2)

/-- One result of a find: the matched text (group 0) and the captures. -/
structure GoMatch where
  full : String
  caps : Caps
deriving DecidableEq, Repr

/-- Group accessor: Go's `FindAllStringSubmatch` yields `""` for a group
that did not participate in the match. -/
def GoMatch.g (m : GoMatch) (i : Nat) : String :=
  match m.caps.find? (fun p => p.1 = i) with
  | some p => p.2
  | none => ""

/-- Scan for a match from successive start positions (Go `MatchString`):
true iff some start position admits a match. -/
def reMatchGo (r : RE) : Nat → Option Char → List Char → Bool
  | 0, _, _ => false
  | fuel + 1, prev, cs =>
    match matchRe (matchFuel cs) r prev cs [] (fun _ s2 c2 => some (s2, c2)) with
    | some _ => true
    | none =>
      match cs with
      | [] => false
      | c :: cs2 => reMatchGo r fuel (some c) cs2

/-- Go `regexp.MatchString` for pattern `r` on `s`. -/
def reMatchB (r : RE) (s : String) : Bool :=
  reMatchGo r (s.length + 1) none s.data

/-- Successive non-overlapping leftmost matches (Go
`FindAllStringSubmatch(s, -1)`); after an empty match the scan advances
one character, as Go does. -/
def reFindAllGo (r : RE) : Nat → Option Char → List Char → List GoMatch → List GoMatch
  | 0, _, _, acc => acc.reverse
  | fuel + 1, prev, cs, acc =>
    match matchRe (matchFuel cs) r prev cs [] (fun _ s2 c2 => some (s2, c2)) with
    | some (rest, caps) =>
      let n := cs.length - rest.length
      let m : GoMatch := ⟨String.mk (cs.take n), caps⟩
      if n = 0 then
        match cs with
        | [] => (m :: acc).reverse
        | c :: cs2 => reFindAllGo r fuel (some c) cs2 (m :: acc)
      else reFindAllGo r fuel ((cs.take n).getLast?) rest (m :: acc)
    | none =>
      match cs with
      | [] => acc.reverse
      | c :: cs2 => reFindAllGo r fuel (some c) cs2 acc

/-- Go `FindAllStringSubmatch(s, -1)` for pattern `r`. -/
def reFindAll (r : RE) (s : String) : List GoMatch :=
  reFindAllGo r (s.length + 1) none s.data []

/-- Full-string match of `r` against `s` (pattern anchored at both
ends); used only to state the spec's "fully matches" reading. -/
def reFullMatch (r : RE) (s : String) : Bool :=
  (matchRe (matchFuel s.data) r none s.data []
    (fun _ s2 c2 => if s2.isEmpty then some (s2, c2) else none)).isSome

/-- Sequence a list of pattern pieces. -/
def reSeq (l : List RE) : RE :=
  l.foldr RE.seq RE.eps

/-- A literal run of characters. -/
def litSeq (s : String) : RE :=
  reSeq (s.data.map RE.lit)

/-- Greedy `\s*`. -/
def wsStar : RE :=
  .star true (.cls goRegexSpace)

/-- RE2 `.` as a class node. -/
def dotC : RE :=
  .cls goDotChar

/-- Lazy `.+?`. -/
def dotPlusLazy : RE :=
  .seq dotC (.star false dotC)

/-- Greedy `.+`. -/
def dotPlusGreedy : RE :=
  .seq dotC (.star true dotC)

/-- The generic token pattern of `utils.go` (`lineGenericRegexPattern`):
dollar, open brace, `\s*`, lazy group 1 (backend id), colon, lazy
selector, `\s*`, optional group 2 (in-brace data-modifier chain), `\s*`,
close brace, `\s*`, optional group 3 (trailing line-modifier chain).
Braces are written via `Char.ofNat` (123 and 125). -/
def lineRegexRE : RE :=
  reSeq [.lit '$', .lit (Char.ofNat 123), wsStar,
    .group 1 dotPlusLazy, .lit ':', dotPlusLazy, wsStar,
    .opt true (.group 2 (reSeq [.lit '|', wsStar, dotPlusLazy])),
    wsStar, .lit (Char.ofNat 125), wsStar,
    .opt true (.group 3 (reSeq [.lit '|', wsStar, dotPlusGreedy]))]

/-- The comment pattern `^\s*#.*` (`regexCommentLine`). -/
def commentRE : RE :=
  reSeq [.bos, wsStar, .lit '#', .star true dotC]

/-- The modifier pattern `\bindent(\d+)\b` (`regexIndentModifier`). -/
def indentRE : RE :=
  reSeq [.wordB, litSeq "indent",
    .group 1 (.seq (.cls Char.isDigit) (.star true (.cls Char.isDigit))), .wordB]

/-- The modifier pattern `\bbase64\b` (`regexBase64Modifier`). -/
def base64RE : RE :=
  reSeq [.wordB, litSeq "base64", .wordB]

/-- Optional single quote or double quote character. -/
def quoteOpt : RE :=
  .opt true (.cls (fun c => c = Char.ofNat 34 || c = Char.ofNat 39))

/-- Shared shape of `select\s*\(\s*["']?(.+?)["']?\s*\)` and its `dict`
and `default` counterparts. -/
def modArgRE (name : String) : RE :=
  reSeq [litSeq name, wsStar, .lit '(', wsStar, quoteOpt,
    .group 1 dotPlusLazy, quoteOpt, wsStar, .lit ')']

/-- `regexSelectModifier`. -/
def selectRE : RE :=
  modArgRE "select"

/-- `regexDictModifier`. -/
def dictRE : RE :=
  modArgRE "dict"

/-- `regexDefaultModifier`. -/
def defaultRE : RE :=
  modArgRE "default"

/-! Go standard-library string helpers used by the source. -/

/-- Whitespace trimmed by Go's `strings.TrimSpace` (ASCII part of
`unicode.IsSpace`; the Unicode space code points do not occur in the
inputs considered here). -/
def goUnicodeSpace (c : Char) : Bool :=
  c = ' ' || c = '\t' || c = '\n' || c = '\x0b' || c = '\x0c' || c = '\r'

/-- Go `strings.TrimSpace`. -/
def goTrimSpace (s : String) : String :=
  String.mk (((s.data.dropWhile goUnicodeSpace).reverse.dropWhile goUnicodeSpace).reverse)

/-- Comma-style splitting of a character list on one separator: the
empty list yields one empty field, and every separator occurrence opens
a new field, as Go's `strings.Split` does. -/
def splitOnChar (c : Char) : List Char → List (List Char)
  | [] => [[]]
  | a :: rest =>
    if a = c then [] :: splitOnChar c rest
    else
      match splitOnChar c rest with
      | ts :: tss => (a :: ts) :: tss
      | [] => [[a]]

/-- Go `strings.Split` on a one-character separator (the source only
splits on `","`, `"="` and `"|"`). -/
def goSplit (s : String) (c : Char) : List String :=
  (splitOnChar c s.data).map String.mk

/-- Index of the first occurrence of `pat` in `s` (Go `strings.Index`
restricted to the nonempty patterns the source uses). -/
def strIndexOf (pat : List Char) : List Char → Option Nat
  | [] => if pat.isPrefixOf ([] : List Char) then some 0 else none
  | c :: cs =>
    if pat.isPrefixOf (c :: cs) then some 0
    else (strIndexOf pat cs).map (· + 1)

/-- Go `strings.Replace(s, old, new, 1)`: replace the first occurrence
of `old`; an empty `old` inserts `new` at the start. -/
def goReplaceFirst (s old new : String) : String :=
  if old.data = [] then new ++ s
  else
    match strIndexOf old.data s.data with
    | none => s
    | some i => String.mk (s.data.take i ++ new.data ++ s.data.drop (i + old.data.length))

/-- Strip one trailing carriage return, as `bufio.ScanLines` does. -/
def dropCR (l : String) : String :=
  if l.data.getLast? = some '\r' then String.mk l.data.dropLast else l

/-- The sequence of lines a `bufio.Scanner` with `ScanLines` yields on
`s`: split on newline, drop the empty token after a final newline, and
strip one trailing `\r` per line.  (The scanner's 64 KiB token limit is
not modelled.) -/
def goLines (s : String) : List String :=
  if s = "" then []
  else
    let cs := goSplit s '\n'
    let cs := if cs.getLast? = some "" then cs.dropLast else cs
    cs.map dropCR

/-! The modifier pipeline of `utils.go`. -/

/-- UTF-8 bytes of one character, as byte values. -/
def charUtf8 (c : Char) : List Nat :=
  let n := c.toNat
  if n < 128 then [n]
  else if n < 2048 then [192 + n / 64, 128 + n % 64]
  else if n < 65536 then [224 + n / 4096, 128 + n / 64 % 64, 128 + n % 64]
  else [240 + n / 262144, 128 + n / 4096 % 64, 128 + n / 64 % 64, 128 + n % 64]

/-- UTF-8 byte sequence of a string. -/
def utf8Bytes (s : String) : List Nat :=
  s.data.foldr (fun c acc => charUtf8 c ++ acc) []

/-- Standard base64 alphabet. -/
def b64Char (n : Nat) : Char :=
  if n < 26 then Char.ofNat ('A'.toNat + n)
  else if n < 52 then Char.ofNat ('a'.toNat + (n - 26))
  else if n < 62 then Char.ofNat ('0'.toNat + (n - 52))
  else if n = 62 then '+'
  else '/'

/-- Standard base64 encoding of a byte sequence, with `=` padding. -/
def b64Encode : List Nat → List Char
  | [] => []
  | [a] => [b64Char (a / 4), b64Char (a % 4 * 16), '=', '=']
  | [a, b] => [b64Char (a / 4), b64Char (a % 4 * 16 + b / 16), b64Char (b % 16 * 4), '=']
  | a :: b :: c :: rest =>
    b64Char (a / 4) :: b64Char (a % 4 * 16 + b / 16) ::
      b64Char (b % 16 * 4 + c / 64) :: b64Char (c % 64) :: b64Encode rest

/-- `encodingBase64` of `utils.go`: `base64.StdEncoding.EncodeToString`
of the string's UTF-8 bytes. -/
def encodingBase64 (str : String) : String :=
  String.mk (b64Encode (utf8Bytes str))

/-- `indent` of `utils.go`: per scanned sub-line, strip leading `\s+`
(the compiled `^\s+` replacement) and prepend `n` spaces plus the
sub-line plus a newline; finally drop the last character when the
accumulated output is longer than one. -/
def indent (line : String) (n : Nat) : String :=
  let out := (goLines line).foldl
    (fun acc l =>
      acc ++ String.mk (List.replicate n ' ') ++ String.mk (l.data.dropWhile goRegexSpace) ++ "\n")
    ""
  if out.data.length > 1 then String.mk out.data.dropLast else out

/-- Loop body of `selectData`: first comma element whose trimmed text
matches the compiled pattern (Go `MatchString`, i.e. a substring
match), trimmed; otherwise the unmodified value. -/
def selectLoop (re : RE) (dat : String) : List String → String
  | [] => dat
  | e :: rest =>
    if reMatchB re (goTrimSpace e) then goTrimSpace e else selectLoop re dat rest

/-- Compilation of the user-supplied pattern extracted by
`regexSelectModifier`, modelled on the metacharacter-free fragment of
Go regexp plus the two anchors: a leading `^`, a trailing `$`, and
literal characters in between.  The patterns exercised in this
development stay inside this fragment, where the model agrees with
`regexp.MustCompile`. -/
def compileLitPattern (p : String) : RE :=
  let b := p.data.head? = some '^'
  let p1 := if b then p.data.tail else p.data
  let e := p1.getLast? = some '$'
  let p2 := if e then p1.dropLast else p1
  reSeq ((if b then [RE.bos] else []) ++ p2.map RE.lit ++ (if e then [RE.eos] else []))

/-- `selectData` of `utils.go`: extract the pattern from the modifier
text (`res[0][1]`), compile it, split the value on commas and return
the first trimmed element the pattern matches, falling back to the
unmodified value.  `none` models the `res[0]` index panic, unreachable
under the caller's `MatchString` guard. -/
def selectData (dat modifier : String) : Option String :=
  match reFindAll selectRE modifier with
  | [] => none
  | mm :: _ => some (selectLoop (compileLitPattern (mm.g 1)) dat (goSplit dat ','))

/-- Loop body of `selectDictData`: Go splits each comma element on `=`
and reads `keyValue[0]` and `keyValue[1]` unconditionally, so an
element without `=` is an index-out-of-range panic (`none`) even when a
later element would have matched. -/
def dictLoop (key dat : String) : List String → Option String
  | [] => some dat
  | e :: rest =>
    match goSplit (goTrimSpace e) '=' with
    | k :: v :: _ =>
      if goTrimSpace k = key then some (goTrimSpace v) else dictLoop key dat rest
    | _ => none

/-- `selectDictData` of `utils.go`. -/
def selectDictData (dat modifier : String) : Option String :=
  match reFindAll dictRE modifier with
  | [] => none
  | mm :: _ => dictLoop (mm.g 1) dat (goSplit dat ',')

/-- `defaultValue` of `utils.go`: the parenthesized argument, ignoring
the current value entirely. -/
def defaultValue (modifier : String) : Option String :=
  match reFindAll defaultRE modifier with
  | [] => none
  | mm :: _ => some (mm.g 1)

/-- `modifierExists` of `utils.go`: true iff ANY of the five recognizer
regexes matches somewhere in the whole chain string. -/
def modifierExists (modifier : String) : Bool :=
  reMatchB indentRE modifier || reMatchB base64RE modifier ||
    reMatchB selectRE modifier || reMatchB dictRE modifier ||
    reMatchB defaultRE modifier

/-- The `n` of an `indentN` element: `res[0][1]` parsed by
`strconv.Atoi`, whose error the source discards (leaving 0). -/
def extractIndentN (m : String) : Nat :=
  match reFindAll indentRE m with
  | [] => 0
  | mm :: _ => (mm.g 1).data.foldl (fun n c => n * 10 + (c.toNat - '0'.toNat)) 0

/-- Loop body of `processModifiers`: dispatch each `|`-separated element
through the recognizers in the source's order (base64, select, dict,
default, indent); an element recognized by none is silently skipped. -/
def applyMods : String → List String → Option String
  | dat, [] => some dat
  | dat, m0 :: rest =>
    let m := goTrimSpace m0
    if m.length > 0 then
      if reMatchB base64RE m then applyMods (encodingBase64 dat) rest
      else if reMatchB selectRE m then
        match selectData dat m with
        | some d => applyMods d rest
        | none => none
      else if reMatchB dictRE m then
        match selectDictData dat m with
        | some d => applyMods d rest
        | none => none
      else if reMatchB defaultRE m then
        match defaultValue m with
        | some d => applyMods d rest
        | none => none
      else if reMatchB indentRE m then applyMods (indent dat (extractIndentN m)) rest
      else applyMods dat rest
    else applyMods dat rest

/-- `processModifiers` of `utils.go`: strip all spaces from the chain
expression, split on `|`, and fold the elements over the value.  `none`
models a Go runtime panic inside an element. -/
def processModifiers (dat modifier : String) : Option String :=
  applyMods dat (goSplit (String.mk (modifier.data.filter (fun c => c ≠ ' '))) '|')

/-! The manifest processor of `utils.go`. -/

/-- `isCommentedLine`: the line matches `^\s*#.*`. -/
def isCommentedLine (line : String) : Bool :=
  reMatchB commentRE line

/-- `foundLine`: the line matches the generic token pattern. -/
def foundLine (line : String) : Bool :=
  reMatchB lineRegexRE line

/-- A `corev1.Secret` as the engine reads it: a name, the (nil-able)
annotation map and the string-valued data map. -/
structure K8sSecret where
  name : String
  annotations : Option (List (String × String))
  data : List (String × String)
deriving DecidableEq, Repr

/-- `annotationConfigType` of `utils.go`. -/
def annotationConfigType : String :=
  "datareplaceinline/config-type"

/-- The two registered backend kinds. -/
inductive BackendKind where
  | vault
  | git
deriving DecidableEq, Repr

/-- The distinct error shapes `processLine` and `ProcessManifest` can
produce, one constructor per `fmt.Errorf` site, carrying exactly the
values that site formats in.  Only `handlerErr` (the Go
`error in line %d` wrapper) and `unknownModifier` embed the line
number. -/
inductive ProcErr where
  | secretGet (msg : String)
  | noAnnotations (nameScrt : String)
  | annotationNotFound (nameScrt : String)
  | unknownBackendType (nameScrt : String)
  | handlerErr (lineNumber : Nat) (msg : String)
  | unknownModifier (modifier : String) (lineNumber : Nat)
  | panic (msg : String)
deriving DecidableEq, Repr

/-- The line number an error message carries, if any: reading off the
`fmt.Errorf` format strings of `processLine`, only the handler-error
wrapper and the unknown-modifier error mention the line. -/
def errLineNumber : ProcErr → Option Nat
  | .handlerErr n _ => some n
  | .unknownModifier _ n => some n
  | _ => none

/-- The effectful collaborators of the processor: the namespace-scoped
secret GET (`getKubernetesSecret`) and the dispatched backend call
(`Handler.GetValueFromRegex` of the vault or git package, which perform
network and filesystem I/O). -/
structure Env where
  getSecret : String → Except String K8sSecret
  resolve : BackendKind → String → K8sSecret → Except String String

/-- ASCII `strings.ToLower` (the annotation values compared here are
ASCII). -/
def asciiLower (s : String) : String :=
  String.mk (s.data.map Char.toLower)

/-- The annotation checks and backend dispatch of `processLine`: nil
annotation map, missing `datareplaceinline/config-type` key and unknown
(lower-cased) annotation value are each a distinct error; `vault` and
`git` select the corresponding handler. -/
def backendOf (nameScrt : String) (sec : K8sSecret) : Except ProcErr BackendKind :=
  match sec.annotations with
  | none => .error (.noAnnotations nameScrt)
  | some anns =>
    match anns.lookup annotationConfigType with
    | none => .error (.annotationNotFound nameScrt)
    | some ty =>
      match asciiLower ty with
      | "vault" => .ok BackendKind.vault
      | "git" => .ok BackendKind.git
      | _ => .error (.unknownBackendType nameScrt)

/-- Data-modifier step of the `processLine` loop body: an empty chain is
skipped; a chain `modifierExists` rejects is the unknown-modifier error;
otherwise the chain is applied to the resolved value. -/
def applyDataMod (n : Nat) (dm v0 : String) : Except ProcErr String :=
  if dm = "" then .ok v0
  else if modifierExists dm then
    match processModifiers v0 dm with
    | some v => .ok v
    | none => .error (.panic dm)
  else .error (.unknownModifier dm n)

/-- Line-modifier step of the `processLine` loop body, applied to the
whole spliced line whenever the trailing chain is nonempty; the final
`strings.Replace(line, line, val, 1)` of the source is kept as is. -/
def applyLineMod (n : Nat) (lm line1 : String) : Except ProcErr String :=
  if lm = "" then .ok line1
  else if modifierExists lm then
    match processModifiers line1 lm with
    | some w => .ok (goReplaceFirst line1 line1 w)
    | none => .error (.panic lm)
  else .error (.unknownModifier lm n)

/-- One iteration of the `processLine` match loop: fetch the secret for
group 1, check annotations and dispatch the backend, resolve the token,
apply the data-modifier chain, splice the value over the first
occurrence of the full match, then apply the line-modifier chain. -/
def matchStep (env : Env) (n : Nat) (line : String) (m : GoMatch) : Except ProcErr String :=
  match env.getSecret (m.g 1) with
  | .error e => .error (.secretGet e)
  | .ok sec =>
    match backendOf (m.g 1) sec with
    | .error e => .error e
    | .ok kind =>
      match env.resolve kind m.full sec with
      | .error e => .error (.handlerErr n e)
      | .ok v0 =>
        match applyDataMod n (m.g 2) v0 with
        | .error e => .error e
        | .ok v => applyLineMod n (m.g 3) (goReplaceFirst line m.full v)

/-- The `processLine` loop over all matches, carrying the mutated `line`
and the `newLine` the Go function returns (empty when there was no
match, which `ProcessManifest` never lets happen). -/
def processLineAux (env : Env) (n : Nat) : List GoMatch → String → String → Except ProcErr String
  | [], _, newLine => .ok newLine
  | m :: rest, line, _ =>
    match matchStep env n line m with
    | .error e => .error e
    | .ok line2 => processLineAux env n rest line2 line2

/-- `processLine` of `utils.go`. -/
def processLine (env : Env) (line : String) (n : Nat) : Except ProcErr String :=
  processLineAux env n (reFindAll lineRegexRE line) line ""

/-- The `ProcessManifest` scan, line by line: comment lines are copied
verbatim; a line the token pattern matches is processed, and processed
once more when the result matches again; every other line is copied;
each contribution is followed by one newline; the first error aborts
the whole manifest. -/
def processLinesAux (env : Env) : List String → Nat → Except ProcErr String
  | [], _ => .ok ""
  | line :: rest, n =>
    match
      (if isCommentedLine line then .ok line
       else if foundLine line then
         match processLine env line n with
         | .error e => .error e
         | .ok t1 => if foundLine t1 then processLine env t1 n else .ok t1
       else .ok line : Except ProcErr String) with
    | .error e => .error e
    | .ok contrib =>
      match processLinesAux env rest (n + 1) with
      | .error e => .error e
      | .ok out => .ok (contrib ++ "\n" ++ out)

/-- `ProcessManifest` of `utils.go`: scan the raw manifest's lines
starting at line number 1; on success the processed text is returned,
on error nothing is. -/
def ProcessManifest (env : Env) (raw : String) : Except ProcErr String :=
  processLinesAux env (goLines raw) 1

/-- Each line followed by one newline, the success shape of
`ProcessManifest`. -/
def joinNL (ls : List String) : String :=
  ls.foldr (fun l acc => l ++ "\n" ++ acc) ""

/-! The Git backend's local cache path (`pkg/git`,
`Handler.GetValueFromRegex`). -/

/-- The last path segment of a URL: `url[strings.LastIndex(url, "/")+1:]`. -/
def lastSeg (url : String) : String :=
  String.mk ((url.data.reverse.takeWhile (fun c => c ≠ '/')).reverse)

/-- The cache directory the git handler derives:
`strings.Replace(lastSeg, ".git", "", 1)` under `/tmp`. -/
def gitDirDest (url : String) : String :=
  "/tmp/" ++ goReplaceFirst (lastSeg url) ".git" ""

/-! Definitions written from the spec's words, for comparison with the
ones above (refinement targets only). -/

/-- Stated reading of the spec's cache-path sentence: the last path
segment with the `.git` SUFFIX stripped, under the cache root. -/
def gitDirDestSpec (url : String) : String :=
  let seg := (lastSeg url).data
  "/tmp/" ++ String.mk (if ".git".data.isSuffixOf seg then seg.take (seg.length - 4) else seg)

/-- Removal of the first occurrence of `pat`, written as a direct
left-to-right scan (independent of the index-based `goReplaceFirst`). -/
def removeFirstOcc (pat : List Char) : List Char → List Char
  | [] => []
  | c :: cs =>
    if pat.isPrefixOf (c :: cs) then (c :: cs).drop pat.length
    else c :: removeFirstOcc pat cs

/-- Stated reading of the spec's `select(pattern)` sentence: the first
comma element whose trimmed text FULLY matches the pattern, trimmed;
otherwise the unmodified value. -/
def selectDataFullSpec (dat modifier : String) : Option String :=
  match reFindAll selectRE modifier with
  | [] => none
  | mm :: _ =>
    some
      (match (goSplit dat ',').find?
          (fun e => reFullMatch (compileLitPattern (mm.g 1)) (goTrimSpace e)) with
       | some e => goTrimSpace e
       | none => dat)

/-! Concrete environments used to instantiate the theorems below. -/

/-- Environment whose secret GET always fails. -/
def envErr : Env :=
  ⟨fun _ => .error "boom", fun _ _ _ => .error "boom"⟩

/-- A secret annotated for the vault backend. -/
def vaultSecret (n : String) : K8sSecret :=
  ⟨n, some [(annotationConfigType, "vault")], []⟩

/-- Environment resolving every token to the fixed value `v`. -/
def envConst (v : String) : Env :=
  ⟨fun n => .ok (vaultSecret n), fun _ _ _ => .ok v⟩

/-- Environment whose secrets exist but carry no annotations at all. -/
def envNoAnn : Env :=
  ⟨fun n => .ok ⟨n, none, []⟩, fun _ _ _ => .ok "x"⟩

/-- A chain of token-shaped values: resolving the first token yields
the second, resolving the second yields the third. -/
def chainNext (p : String) : String :=
  if p = "$\x7bs:a\x7d" then "$\x7bt:b\x7d"
  else if p = "$\x7bt:b\x7d" then "$\x7bu:c\x7d"
  else "X"

/-- Environment realizing `chainNext`. -/
def envChain : Env :=
  ⟨fun n => .ok (vaultSecret n), fun _ p _ => .ok (chainNext p)⟩

/-- A concrete match whose data-modifier chain ends in an element no
recognizer accepts. -/
def mC4 : GoMatch :=
  ⟨"$\x7bs:a|bogus\x7d", [(1, "s"), (2, "|bogus")]⟩

/-- A concrete match carrying both a data-modifier chain and a trailing
line-modifier chain. -/
def mC6 : GoMatch :=
  ⟨"$\x7bs:k|dict(a)\x7d|indent2", [(1, "s"), (2, "|dict(a)"), (3, "|indent2")]⟩

/-! Helper lemmas shared by the claim theorems. -/

theorem isPrefixOf_self (l : List Char) : l.isPrefixOf l = true := by
  induction l with
  | nil => rfl
  | cons a l ih => simp [List.isPrefixOf, ih]

theorem strIndexOf_self (l : List Char) : strIndexOf l l = some 0 := by
  cases l with
  | nil => rfl
  | cons a l => simp [strIndexOf, isPrefixOf_self]

theorem goReplaceFirst_self (s w : String) : goReplaceFirst s s w = w := by
  unfold goReplaceFirst
  by_cases h : s.data = []
  · obtain ⟨d⟩ := s
    obtain ⟨wd⟩ := w
    simp only [h, if_pos rfl] at *
    subst h
    show String.mk (wd ++ []) = String.mk wd
    simp
  · rw [if_neg h, strIndexOf_self]
    simp only [List.take_zero, Nat.zero_add, List.drop_length, List.nil_append, List.append_nil]

theorem selectLoop_eq_find (re : RE) (dat : String) (l : List String) :
    selectLoop re dat l =
      (match l.find? (fun e => reMatchB re (goTrimSpace e)) with
       | some e => goTrimSpace e
       | none => dat) := by
  induction l with
  | nil => rfl
  | cons a l ih =>
    cases ha : reMatchB re (goTrimSpace a) <;>
      simp [selectLoop, List.find?, ha, ih]

theorem strIndexOf_removeFirst (pat : List Char) (hp : pat ≠ []) :
    ∀ l : List Char,
      (match strIndexOf pat l with
       | none => l
       | some i => l.take i ++ l.drop (i + pat.length)) = removeFirstOcc pat l := by
  intro l
  induction l with
  | nil =>
    obtain ⟨⟩ | ⟨c, cs⟩ := pat
    · exact absurd rfl hp
    · rfl
  | cons c cs ih =>
    by_cases hpre : pat.isPrefixOf (c :: cs) = true
    · simp [strIndexOf, hpre, removeFirstOcc]
    · simp only [strIndexOf, hpre, if_false, Bool.false_eq_true, if_neg, removeFirstOcc]
      cases hidx : strIndexOf pat cs with
      | none =>
        rw [hidx] at ih
        simp [hidx, ← ih]
      | some i =>
        rw [hidx] at ih
        have harith : i + 1 + pat.length = (i + pat.length) + 1 := by omega
        simp [hidx, harith, List.take_succ_cons, List.drop_succ_cons, ← ih]

theorem goReplaceFirst_removeFirstOcc (s old : String) (h : old.data ≠ []) :
    goReplaceFirst s old "" = String.mk (removeFirstOcc old.data s.data) := by
  unfold goReplaceFirst
  rw [if_neg h]
  have hmain := strIndexOf_removeFirst old.data h s.data
  cases hidx : strIndexOf old.data s.data with
  | none =>
    rw [hidx] at hmain
    rw [← hmain]
  | some i =>
    rw [hidx] at hmain
    rw [← hmain]
    simp

/-! The claims. -/

/-- Claim C1: on input text in which no line matches the token grammar,
`ProcessManifest` copies every line verbatim to the output, each
followed by a single newline. -/
theorem C1_no_token_lines_identity (env : Env) (text : String)
    (h : ∀ l ∈ goLines text, foundLine l = false) :
    ProcessManifest env text = .ok (joinNL (goLines text)) := by
  unfold ProcessManifest
  have main : ∀ ls : List String, (∀ l ∈ ls, foundLine l = false) →
      ∀ n : Nat, processLinesAux env ls n = .ok (joinNL ls) := by
    intro ls
    induction ls with
    | nil => intro _ n; rfl
    | cons a as ih =>
      intro hh n
      have ha : foundLine a = false := hh a (List.mem_cons_self a as)
      have has : ∀ l ∈ as, foundLine l = false := fun l hl => hh l (List.mem_cons_of_mem a hl)
      have hrec := ih has (n + 1)
      cases hca : isCommentedLine a <;>
        simp [processLinesAux, hca, ha, hrec, joinNL]
  exact main (goLines text) h 1

/-- Witness for C1 at a concrete two-line manifest with no token
matches, against the environment whose collaborators always fail. -/
theorem C1_no_token_lines_identity_witness :
    ProcessManifest envErr "a: 1\nb: 2" = .ok "a: 1\nb: 2\n" := by
  have h := C1_no_token_lines_identity envErr "a: 1\nb: 2" (by decide)
  exact h.trans (by rfl)

/-- Claim C2: a line whose processed result matches the token grammar
again is processed exactly once more, and the second result is emitted
as is — even when it is itself still token-shaped, it is never expanded
further. -/
theorem C2_reindirection_single_hop (env : Env) (line : String) (rest : List String)
    (n : Nat) (t1 t2 : String)
    (hc : isCommentedLine line = false) (hf : foundLine line = true)
    (h1 : processLine env line n = .ok t1) (hf1 : foundLine t1 = true)
    (h2 : processLine env t1 n = .ok t2) :
    processLinesAux env (line :: rest) n =
      (processLinesAux env rest (n + 1)).map (fun out => t2 ++ "\n" ++ out) := by
  simp only [processLinesAux, hc, hf, h1, hf1, h2, Bool.false_eq_true, if_false, if_true]
  cases processLinesAux env rest (n + 1) <;> rfl

/-- Witness for C2: an environment on which every resolution returns
yet another token-shaped value; the output is the result of the second
pass, a string that is still token-shaped but is not expanded. -/
theorem C2_reindirection_single_hop_witness :
    processLinesAux envChain ["$\x7bs:a\x7d"] 1 = .ok "$\x7bu:c\x7d\n" ∧
      foundLine "$\x7bu:c\x7d" = true := by
  constructor
  · have h := C2_reindirection_single_hop envChain "$\x7bs:a\x7d" [] 1
      "$\x7bt:b\x7d" "$\x7bu:c\x7d" (by rfl) (by rfl) (by rfl) (by rfl) (by rfl)
    exact h.trans (by rfl)
  · rfl

/-- Claim C3: a comment line is copied verbatim, for every environment
and every continuation of the manifest — in particular it is never
scanned for tokens. -/
theorem C3_comment_line_verbatim (env : Env) (line : String) (rest : List String) (n : Nat)
    (hc : isCommentedLine line = true) :
    processLinesAux env (line :: rest) n =
      (processLinesAux env rest (n + 1)).map (fun out => line ++ "\n" ++ out) := by
  simp only [processLinesAux, hc, if_true]
  cases processLinesAux env rest (n + 1) <;> rfl

/-- Witness for C3 at a comment line that does contain text matching
the token grammar, against the environment whose collaborators always
fail: the line comes through verbatim anyway. -/
theorem C3_comment_line_verbatim_witness :
    processLinesAux envErr ["# $\x7bs:a\x7d"] 1 = .ok "# $\x7bs:a\x7d\n" ∧
      foundLine "# $\x7bs:a\x7d" = true := by
  constructor
  · have h := C3_comment_line_verbatim envErr "# $\x7bs:a\x7d" [] 1 (by rfl)
    exact h.trans (by rfl)
  · rfl

/-- Counterexample to claim C4 as stated: the chain `|base64|bogus`
contains the element `bogus`, which no recognizer accepts, yet the line
processes successfully (base64 is applied and `bogus` is silently
skipped) instead of failing with an unknown-modifier error. -/
theorem C4_unknown_modifier_counterexample :
    ProcessManifest (envConst "v") "$\x7bs:a|base64|bogus\x7d" = .ok "dg==\n" ∧
      "bogus" ∈ goSplit "|base64|bogus" '|' ∧
      modifierExists "bogus" = false := by
  refine ⟨by rfl, by decide, by rfl⟩

/-- Claim C4 as amended: the unknown-modifier error fires (before any
chain element executes, and after backend resolution) exactly when NO
recognizer matches anywhere in the chain string, i.e. when
`modifierExists` rejects the whole chain. -/
theorem C4_unknown_chain_errors (env : Env) (n : Nat) (line : String) (m : GoMatch)
    (sec : K8sSecret) (kind : BackendKind) (v0 : String)
    (hs : env.getSecret (m.g 1) = .ok sec)
    (hb : backendOf (m.g 1) sec = .ok kind)
    (hr : env.resolve kind m.full sec = .ok v0)
    (hd : m.g 2 ≠ "") (hdm : modifierExists (m.g 2) = false) :
    matchStep env n line m = .error (.unknownModifier (m.g 2) n) := by
  simp only [matchStep, hs, hb, hr, applyDataMod, if_neg hd, hdm,
    Bool.false_eq_true, if_false]

/-- Witness for the amended C4: a chain whose only element is
unrecognized is rejected at validation time. -/
theorem C4_unknown_chain_errors_witness :
    matchStep (envConst "v") 1 "$\x7bs:a|bogus\x7d" mC4 =
      .error (.unknownModifier "|bogus" 1) := by
  have h := C4_unknown_chain_errors (envConst "v") 1 "$\x7bs:a|bogus\x7d" mC4
    (vaultSecret "s") .vault "v" (by rfl) (by rfl) (by rfl) (by decide) (by rfl)
  exact h

/-- Counterexample to claim C5 as stated: a secret without annotations
aborts the manifest, but the propagated error does not carry the
1-based line number (only handler and modifier errors do). -/
theorem C5_unannotated_error_counterexample :
    ProcessManifest envNoAnn "$\x7bs:a\x7d" = .error (.noAnnotations "s") ∧
      errLineNumber (.noAnnotations "s") = none := by
  exact ⟨rfl, rfl⟩

/-- Claim C5 as amended: the first error from processing a line aborts
the whole manifest — the error is propagated unchanged and no output is
produced, whatever the remaining lines are. -/
theorem C5_first_error_aborts (env : Env) (line : String) (rest : List String)
    (n : Nat) (e : ProcErr)
    (hc : isCommentedLine line = false) (hf : foundLine line = true)
    (he : processLine env line n = .error e) :
    processLinesAux env (line :: rest) n = .error e := by
  simp only [processLinesAux, hc, hf, he, Bool.false_eq_true, if_false, if_true]

/-- Witness for the amended C5: a failing secret GET aborts a two-line
manifest with the fetch error, untouched. -/
theorem C5_first_error_aborts_witness :
    processLinesAux envErr ["$\x7bs:a\x7d", "x"] 1 = .error (.secretGet "boom") := by
  exact C5_first_error_aborts envErr "$\x7bs:a\x7d" ["x"] 1 (.secretGet "boom")
    (by rfl) (by rfl) (by rfl)

/-- Counterexample to claim C6 as stated: a token carrying both a
data-modifier chain and a trailing line-modifier chain; the claim says
only the data chain is applied, so the line would come out as
`v: 1`, but the source also applies the line chain (`indent2`),
producing `  v: 1`. -/
theorem C6_both_chains_counterexample :
    (reFindAll lineRegexRE "v: $\x7bs:k|dict(a)\x7d|indent2").map (fun m => (m.g 2, m.g 3)) =
        [("|dict(a)", "|indent2")] ∧
      ProcessManifest (envConst "a=1") "v: $\x7bs:k|dict(a)\x7d|indent2" = .ok "  v: 1\n" ∧
      ("  v: 1\n" : String) ≠ "v: 1\n" := by
  refine ⟨by rfl, by rfl, by decide⟩

/-- Claim C6 as amended: the line-modifier chain is applied to the
whole spliced line whenever it is present, regardless of the data
chain; the data chain is applied to the resolved value before
splicing. -/
theorem C6_line_modifier_applied_despite_data_chain (env : Env) (n : Nat) (line : String)
    (m : GoMatch) (sec : K8sSecret) (kind : BackendKind) (v0 v w : String)
    (hs : env.getSecret (m.g 1) = .ok sec)
    (hb : backendOf (m.g 1) sec = .ok kind)
    (hr : env.resolve kind m.full sec = .ok v0)
    (hd : m.g 2 ≠ "") (hdm : modifierExists (m.g 2) = true)
    (hpm : processModifiers v0 (m.g 2) = some v)
    (hl : m.g 3 ≠ "") (hlm : modifierExists (m.g 3) = true)
    (hplm : processModifiers (goReplaceFirst line m.full v) (m.g 3) = some w) :
    matchStep env n line m = .ok w := by
  simp only [matchStep, hs, hb, hr, applyDataMod, if_neg hd, hdm, hpm, if_true,
    applyLineMod, if_neg hl, hlm, hplm, goReplaceFirst_self]

/-- Witness for the amended C6: both chains fire on one token; the dict
lookup rewrites the value to `1` and the indent chain then reshapes the
whole line. -/
theorem C6_line_modifier_applied_despite_data_chain_witness :
    matchStep (envConst "a=1") 1 "v: $\x7bs:k|dict(a)\x7d|indent2" mC6 = .ok "  v: 1" := by
  have h := C6_line_modifier_applied_despite_data_chain (envConst "a=1") 1
    "v: $\x7bs:k|dict(a)\x7d|indent2" mC6 (vaultSecret "s") .vault "a=1" "1" "  v: 1"
    (by rfl) (by rfl) (by rfl) (by decide) (by rfl) (by rfl) (by decide) (by rfl) (by rfl)
  exact h

/-- Counterexample to claim C7 as stated: with pattern `b` and value
`abc,def`, no element fully matches, so the claim demands the original
value back; `selectData` instead returns `abc`, because Go
`MatchString` is an unanchored substring match. -/
theorem C7_select_substring_counterexample :
    selectData "abc,def" "select(b)" = some "abc" ∧
      selectDataFullSpec "abc,def" "select(b)" = some "abc,def" ∧
      selectData "abc,def" "select(b)" ≠ selectDataFullSpec "abc,def" "select(b)" := by
  refine ⟨by rfl, by rfl, by decide⟩

/-- Claim C7 as amended: `selectData` splits the value on commas and
returns the first element whose trimmed text CONTAINS a match of the
pattern (unanchored, so anchors must be written into the pattern),
trimmed; if no element matches it returns the unmodified value. -/
theorem C7_select_first_substring_match (dat modifier : String)
    (mm : GoMatch) (ms : List GoMatch)
    (h : reFindAll selectRE modifier = mm :: ms) :
    selectData dat modifier =
      some (match (goSplit dat ',').find?
          (fun e => reMatchB (compileLitPattern (mm.g 1)) (goTrimSpace e)) with
        | some e => goTrimSpace e
        | none => dat) := by
  unfold selectData
  rw [h]
  exact congrArg some (selectLoop_eq_find _ dat _)

/-- Witness for the amended C7: pattern `b` against `a,bb,b` picks
`bb`, the first element containing a `b`. -/
theorem C7_select_first_substring_match_witness :
    selectData "a,bb,b" "select(b)" = some "bb" := by
  have h := C7_select_first_substring_match "a,bb,b" "select(b)"
    ⟨"select(b)", [(1, "b")]⟩ [] (by rfl)
  exact h.trans (by rfl)

/-- Counterexample to claim C8 as stated: for a URL whose last segment
contains `.git` before its `.git` suffix, the source removes the FIRST
occurrence, not the suffix. -/
theorem C8_git_suffix_counterexample :
    gitDirDest "https://h/a.gitb.git" = "/tmp/ab.git" ∧
      gitDirDestSpec "https://h/a.gitb.git" = "/tmp/a.gitb" ∧
      gitDirDest "https://h/a.gitb.git" ≠ gitDirDestSpec "https://h/a.gitb.git" := by
  refine ⟨by rfl, by rfl, by decide⟩

/-- Claim C8 as amended: the cache path is deterministically the last
path segment of the URL with the FIRST occurrence of `.git` removed,
under the fixed root `/tmp`. -/
theorem C8_cache_path_first_occurrence (url : String) :
    gitDirDest url = "/tmp/" ++ String.mk (removeFirstOcc ".git".data (lastSeg url).data) := by
  unfold gitDirDest
  rw [goReplaceFirst_removeFirstOcc _ _ (by decide)]

/-- Claim C9: `dict(key)` is NOT total — a comma element without `=`
makes `selectDictData` (and hence the chain application) index past
the split result, a Go runtime panic, modelled as `none`. -/
theorem C9_dict_element_without_eq_panics :
    selectDictData "abc" "dict(k)" = none ∧ processModifiers "abc" "|dict(k)" = none := by
  exact ⟨rfl, rfl⟩

end DataReplace
